import Mathlib

/-!
# baseapp.JobManager: dispatch and lifecycle

A shallow embedding of `src/baseapp/manager.go`.

* A job is a record of what its methods return and of which trigger interfaces its
  dynamic type implements (the outcome of the four type assertions in `Start`).
* `Start` and `Stop` are the two `for ... range jm.jobs` loops; their visible effects
  (calls to `Setup`, `Teardown`, `jobProducers.Submit`) are recorded in order and a
  `panic` ends the loop.
* Every closure handed to `jobProducers.Submit` is embedded as a function from what its
  environment delivers (results of `Condition`, of `IntervalTime`, what the `select`
  statement sees) to the ordered list of effects it performs and whether it returned.
-/

namespace Baseapp

/-! ## Data model -/

/-- Handle of a `context.Context`. -/
abbrev Ctx := Nat

/-- Trigger value sent on a subscription channel (`interface{}` in the source). -/
abbrev Value := Nat

/-- A `time.Duration`, in nanoseconds. -/
abbrev Duration := Int

/-- An `error` value (its message). -/
abbrev Err := String

/-- The four trigger interfaces, one producer closure for each in `Start`. -/
inductive Adapter where
  | conditional
  | subscribable
  | ethSubscribable
  | polling
  deriving DecidableEq, Repr

/-- A `job.Basic` value. `Setup` and `Teardown` hold what the method returns
(`none` is a nil error); the four flags say whether the type assertion to the
corresponding interface succeeds. -/
structure Job where
  id : Nat
  Setup : Option Err
  Teardown : Option Err
  isConditional : Bool
  isSubscribable : Bool
  isEthSubscribable : Bool
  isPolling : Bool
  deriving DecidableEq, Repr

/-- Whether `j.(job.X)` succeeds for the interface `X` of adapter `a`. -/
def Job.implements (j : Job) : Adapter → Bool
  | .conditional => j.isConditional
  | .subscribable => j.isSubscribable
  | .ethSubscribable => j.isEthSubscribable
  | .polling => j.isPolling

/-- Modelled from the spec: `worker.PoolConfig` is declared in package `worker`, outside
`manager.go`; it is "a configuration object with recognized options" name, min/max
workers, queue capacity and resizing strategy, here with the field names that
`NewJobManager` assigns. -/
structure PoolConfig where
  Name : String
  PrometheusPrefix : String
  MinWorkers : Nat
  MaxWorkers : Nat
  ResizingStrategy : String
  MaxQueuedJobs : Nat
  deriving DecidableEq, Repr

/-- Modelled from the spec: `worker.Pool` and `worker.NewPool` are outside `manager.go`;
the manager depends on a pool through its construction parameters, so a pool is the
configuration it was built from. -/
structure Pool where
  cfg : PoolConfig
  deriving DecidableEq, Repr

/-- The `JobManager` struct (the logger is a pass-through side channel). -/
structure JobManager where
  jobs : List Job
  jobProducers : Pool
  jobExecutors : Pool
  deriving DecidableEq, Repr

/-- `NewJobManager(name, logger, jobs)`. The result of `worker.DefaultPoolConfig()`
is the parameter `dflt`. -/
def NewJobManager (dflt : PoolConfig) (name : String) (jobs : List Job) : JobManager :=
  let poolCfg := { dflt with Name := name, PrometheusPrefix := "job_executor" }
  { jobs := jobs
    jobExecutors := ⟨poolCfg⟩
    jobProducers := ⟨{ Name := "job-producer"
                       PrometheusPrefix := "job_producer"
                       MinWorkers := jobs.length
                       MaxWorkers := jobs.length
                       ResizingStrategy := "balanced"
                       MaxQueuedJobs := 1000 }⟩ }

/-! ## Start and Stop -/

/-- A closure submitted to the producer pool: which adapter loop, for which job. -/
structure Task where
  job : Job
  adapter : Adapter
  deriving DecidableEq, Repr

/-- The value a `panic` is raised with. -/
inductive PanicValue where
  | error (e : Err)
  | msg (s : String)
  deriving DecidableEq, Repr

/-- Effects of `Start` and `Stop` on the jobs and on the producer pool. -/
inductive MgrEvent where
  | setup (j : Job)
  | submit (t : Task)
  | teardown (j : Job)
  deriving DecidableEq, Repr

/-- Outcome of a manager call: the effects in order, and the panic if one was raised. -/
structure MgrRun where
  events : List MgrEvent
  panic : Option PanicValue
  deriving DecidableEq, Repr

/-- Put effects performed earlier in front of a run. -/
def MgrRun.after (evs : List MgrEvent) (r : MgrRun) : MgrRun :=
  { r with events := evs ++ r.events }

/-- The `if ... else if ...` chain of type assertions in the body of the loop of
`Start`: the closure that is submitted, or `none` when the final `else` is reached. -/
def producerTask (j : Job) : Option Task :=
  if j.isConditional then some ⟨j, .conditional⟩
  else if j.isSubscribable then some ⟨j, .subscribable⟩
  else if j.isEthSubscribable then some ⟨j, .ethSubscribable⟩
  else if j.isPolling then some ⟨j, .polling⟩
  else none

/-- The loop `for _, j := range jm.jobs` of `Start`. -/
def startLoop : List Job → MgrRun
  | [] => ⟨[], none⟩
  | j :: rest =>
    match j.Setup with
    | some err => ⟨[.setup j], some (.error err)⟩
    | none =>
      match producerTask j with
      | some t => (startLoop rest).after [.setup j, .submit t]
      | none => ⟨[.setup j], some (.msg "unknown job type")⟩

/-- `(*JobManager).Start`. -/
def JobManager.Start (jm : JobManager) : MgrRun :=
  startLoop jm.jobs

/-- The loop `for _, j := range jm.jobs` of `Stop`. -/
def stopLoop : List Job → MgrRun
  | [] => ⟨[], none⟩
  | j :: rest =>
    match j.Teardown with
    | some err => ⟨[.teardown j], some (.error err)⟩
    | none => (stopLoop rest).after [.teardown j]

/-- `(*JobManager).Stop`. -/
def JobManager.Stop (jm : JobManager) : MgrRun :=
  stopLoop jm.jobs

/-- The tasks submitted to the producer pool, in submission order. -/
def MgrRun.submitted (r : MgrRun) : List Task :=
  r.events.filterMap fun
    | .submit t => some t
    | _ => none

/-- The jobs whose `Setup` was invoked, in invocation order. -/
def MgrRun.setups (r : MgrRun) : List Job :=
  r.events.filterMap fun
    | .setup j => some j
    | _ => none

/-- The jobs whose `Teardown` was invoked, in invocation order. -/
def MgrRun.teardowns (r : MgrRun) : List Job :=
  r.events.filterMap fun
    | .teardown j => some j
    | _ => none

/-- The capability a job resolves to, as the specification words it: the first of
Conditional, Subscribable, EthSubscribable, Polling that the job satisfies. -/
def firstCapability (j : Job) : Option Adapter :=
  [Adapter.conditional, .subscribable, .ethSubscribable, .polling].find? j.implements

/-- A job is startable when its `Setup` succeeds and it has a trigger capability. -/
def Job.startable (j : Job) : Bool :=
  j.Setup.isNone && (j.isConditional || j.isSubscribable || j.isEthSubscribable || j.isPolling)

/-! ## Producer tasks -/

/-- Modelled from the spec: `job.NewPayload` and the payload type live in package
`job`, outside `manager.go`; a payload is "an execution request carrying (context,
job reference, optional trigger value)", so it is the record of the three arguments
(`val = none` is the nil trigger value). -/
structure Payload where
  ctx : Ctx
  job : Job
  val : Option Value
  deriving DecidableEq, Repr

/-- The call `job.NewPayload(ctx, j, val)`. -/
def NewPayload (ctx : Ctx) (j : Job) (val : Option Value) : Payload :=
  ⟨ctx, j, val⟩

/-- What a producer closure does, one entry per call or channel receive. -/
inductive Effect where
  | sleep (d : Duration)
  | condition (r : Bool)
  | intervalTime (d : Duration)
  | subscribe
  | recv (v : Value)
  | recvDone
  | recvErr (e : Err)
  | logError (e : Err)
  | addJob (p : Payload)
  | unsubscribe
  deriving DecidableEq, Repr

/-- State of a producer closure after some number of loop iterations: the effects so
far, in order, and whether the closure has executed `return`. -/
structure TaskRun where
  effects : List Effect
  returned : Bool
  deriving DecidableEq, Repr

/-- Put effects performed earlier in front of a run. -/
def TaskRun.after (effs : List Effect) (r : TaskRun) : TaskRun :=
  { r with effects := effs ++ r.effects }

/-- The payloads handed to `jobExecutors.AddJob`, in order. -/
def TaskRun.payloads (r : TaskRun) : List Payload :=
  r.effects.filterMap fun
    | .addJob p => some p
    | _ => none

/-- The values received from the subscription channel, in order. -/
def TaskRun.received (r : TaskRun) : List Value :=
  r.effects.filterMap fun
    | .recv v => some v
    | _ => none

/-- The results of the evaluations of `Condition`, in order. -/
def TaskRun.conditions (r : TaskRun) : List Bool :=
  r.effects.filterMap fun
    | .condition b => some b
    | _ => none

/-- The results of the calls to `IntervalTime`, in order. -/
def TaskRun.intervals (r : TaskRun) : List Duration :=
  r.effects.filterMap fun
    | .intervalTime d => some d
    | _ => none

/-- The arguments of the calls to `time.Sleep`, in order. -/
def TaskRun.sleeps (r : TaskRun) : List Duration :=
  r.effects.filterMap fun
    | .sleep d => some d
    | _ => none

/-- Number of calls to `Unsubscribe`. -/
def TaskRun.unsubscribes (r : TaskRun) : Nat :=
  r.effects.count .unsubscribe

/-- What the environment presents to a producer closure at its `k`-th loop iteration
(counting from 0). -/
structure Env where
  /-- Whether `ctx.Done()` is closed: the cancellation signal has fired. -/
  cancelled : Nat → Bool
  /-- Result of the `k`-th call of `Condition(ctx)`. -/
  Condition : Nat → Bool
  /-- Result of the `k`-th call of `IntervalTime(ctx)`. -/
  IntervalTime : Nat → Duration
  /-- The value waiting on the subscription channel, if one is. -/
  chan : Nat → Option Value
  /-- The choice of the runtime when both cases of the `select` are ready:
  `true` takes the channel value, `false` takes `ctx.Done()`. -/
  pick : Nat → Bool

/-- The fixed tick of the Conditional adapter, `50 * time.Millisecond`. -/
def conditionTick : Duration := 50 * 1000000

/-- The Conditional closure after at most `fuel` iterations of its `for`, the next
call of `Condition` being the `k`-th. -/
def conditionalLoop (ctx : Ctx) (condJob : Job) (env : Env) : Nat → Nat → TaskRun
  | 0, _ => ⟨[], false⟩
  | fuel + 1, k =>
    if env.Condition k then
      ⟨[.sleep conditionTick, .condition true, .addJob (NewPayload ctx condJob none)], true⟩
    else
      (conditionalLoop ctx condJob env fuel (k + 1)).after
        [.sleep conditionTick, .condition false]

/-- The closure submitted for a `job.Conditional`. -/
def conditionalTask (ctx : Ctx) (condJob : Job) (env : Env) (fuel : Nat) : TaskRun :=
  conditionalLoop ctx condJob env fuel 0

/-- The case a `select` of the Subscribable closure takes. -/
inductive SubCase where
  | val (v : Value)
  | done
  | dflt
  deriving DecidableEq, Repr

/-- The `select` with cases `val := <-ch`, `<-ctx.Done()` and `default`: a ready case
is taken, the runtime choosing when both are; `default` only when none is. -/
def selectSub (chan : Option Value) (cancelled pick : Bool) : SubCase :=
  match chan, cancelled with
  | some v, true => if pick then .val v else .done
  | some v, false => .val v
  | none, true => .done
  | none, false => .dflt

/-- The `for { select ... }` of the Subscribable closure, at most `fuel` iterations
starting with iteration `k`. -/
def subscribableLoop (ctx : Ctx) (subJob : Job) (env : Env) : Nat → Nat → TaskRun
  | 0, _ => ⟨[], false⟩
  | fuel + 1, k =>
    match selectSub (env.chan k) (env.cancelled k) (env.pick k) with
    | .val v =>
      (subscribableLoop ctx subJob env fuel (k + 1)).after
        [.recv v, .addJob (NewPayload ctx subJob (some v))]
    | .done => ⟨[.recvDone], true⟩
    | .dflt => subscribableLoop ctx subJob env fuel (k + 1)

/-- The closure submitted for a `job.Subscribable`. -/
def subscribableTask (ctx : Ctx) (subJob : Job) (env : Env) (fuel : Nat) : TaskRun :=
  (subscribableLoop ctx subJob env fuel 0).after [.subscribe]

/-- An event the `select` of the EthSubscribable closure handles: the case taken. -/
inductive EthEvent where
  | done
  | err (e : Err)
  | val (v : Value)
  deriving DecidableEq, Repr

/-- The `for { select ... }` of the EthSubscribable closure over the events its
`select` takes, in order; with no event left the closure is blocked in the `select`. -/
def ethSubscribableLoop (ctx : Ctx) (ethSubJob : Job) : List EthEvent → TaskRun
  | [] => ⟨[], false⟩
  | .done :: _ => ⟨[.recvDone, .unsubscribe], true⟩
  | .err e :: _ => ⟨[.recvErr e, .logError e, .unsubscribe], true⟩
  | .val v :: rest =>
    (ethSubscribableLoop ctx ethSubJob rest).after
      [.recv v, .addJob (NewPayload ctx ethSubJob (some v))]

/-- The closure submitted for a `job.EthSubscribable`. -/
def ethSubscribableTask (ctx : Ctx) (ethSubJob : Job) (events : List EthEvent) : TaskRun :=
  (ethSubscribableLoop ctx ethSubJob events).after [.subscribe]

/-- Whether an event ends the EthSubscribable closure. -/
def EthEvent.terminal : EthEvent → Bool
  | .val _ => false
  | _ => true

/-- The trigger value of an event, for the value events. -/
def EthEvent.value? : EthEvent → Option Value
  | .val v => some v
  | _ => none

/-- The Polling closure after `fuel` iterations of its `for`, the next call of
`IntervalTime` being the `k`-th. The loop has no `return`. -/
def pollingLoop (ctx : Ctx) (pollingJob : Job) (env : Env) : Nat → Nat → TaskRun
  | 0, _ => ⟨[], false⟩
  | fuel + 1, k =>
    (pollingLoop ctx pollingJob env fuel (k + 1)).after
      [.intervalTime (env.IntervalTime k), .sleep (env.IntervalTime k),
       .addJob (NewPayload ctx pollingJob none)]

/-- The closure submitted for a `job.Polling`. -/
def pollingTask (ctx : Ctx) (pollingJob : Job) (env : Env) (fuel : Nat) : TaskRun :=
  pollingLoop ctx pollingJob env fuel 0

/-- Position of a capability in the order in which `Start` tests them. -/
def Adapter.rank : Adapter → Nat
  | .conditional => 0
  | .subscribable => 1
  | .ethSubscribable => 2
  | .polling => 3

/-! ## Sample jobs -/

/-- A job whose type implements both `job.Conditional` and `job.Polling`. -/
def condPollJob : Job := ⟨1, none, none, true, false, false, true⟩

/-- A job whose type implements `job.Subscribable` only. -/
def subJob : Job := ⟨2, none, none, false, true, false, false⟩

/-- A job whose type implements `job.EthSubscribable` only. -/
def ethJob : Job := ⟨3, none, none, false, false, true, false⟩

/-- A job whose type implements `job.Polling` only. -/
def pollJob : Job := ⟨4, none, none, false, false, false, true⟩

/-- A polling job whose `Setup` returns an error. -/
def badSetupJob : Job := ⟨5, some "setup failed", none, false, false, false, true⟩

/-- A job that implements `job.Basic` and none of the trigger interfaces. -/
def plainJob : Job := ⟨6, none, none, false, false, false, false⟩

/-- A polling job whose `Teardown` returns an error. -/
def badTeardownJob : Job := ⟨7, none, some "teardown failed", false, false, false, true⟩

/-- A stand-in for the result of `worker.DefaultPoolConfig()`. -/
def samplePoolConfig : PoolConfig := ⟨"", "", 4, 32, "eager", 100⟩

/-- A manager over one job of each kind. -/
def mixedManager : JobManager :=
  NewJobManager samplePoolConfig "app" [condPollJob, subJob, ethJob, pollJob]

/-- A manager whose third job cannot be classified. -/
def unknownManager : JobManager :=
  NewJobManager samplePoolConfig "app" [pollJob, subJob, plainJob, badSetupJob, ethJob]

/-- A manager whose second job fails in `Teardown`. -/
def leakyManager : JobManager :=
  NewJobManager samplePoolConfig "app" [subJob, badTeardownJob, pollJob]

/-! ## Shapes of effect lists, sample environments -/

/-- The effects of `n` iterations of the Conditional loop in which `Condition` was
false: a sleep of one tick, then the evaluation. -/
def falseTicks (n : Nat) : List Effect :=
  (List.replicate n [Effect.sleep conditionTick, .condition false]).flatten

/-- The effects of the iteration of the Conditional loop in which `Condition` is true. -/
def firingTick (ctx : Ctx) (j : Job) : List Effect :=
  [.sleep conditionTick, .condition true, .addJob (NewPayload ctx j none)]

/-- The effects of the `i`-th iteration of the Polling loop. -/
def pollTick (ctx : Ctx) (j : Job) (env : Env) (i : Nat) : List Effect :=
  [.intervalTime (env.IntervalTime i), .sleep (env.IntervalTime i),
   .addJob (NewPayload ctx j none)]

/-- An environment in which cancellation never fires: `Condition` is true from its
third evaluation on, the polling interval grows by 10ms a call, no value arrives. -/
def quietEnv : Env where
  cancelled := fun _ => false
  Condition := fun k => decide (2 ≤ k)
  IntervalTime := fun k => 10000000 * (k + 1)
  chan := fun _ => none
  pick := fun _ => true

/-- The environment `quietEnv` with the cancellation signal fired from the start. -/
def cancelledEnv : Env :=
  { quietEnv with cancelled := fun _ => true }

/-- An environment in which cancellation has fired from the start while values
`7, 8, ...` are ready on the subscription channel; the runtime takes the value at the
first `select` and `ctx.Done()` afterwards. -/
def racyEnv : Env where
  cancelled := fun _ => true
  Condition := fun _ => false
  IntervalTime := fun _ => 0
  chan := fun k => some (7 + k)
  pick := fun k => decide (k = 0)

/-- The values of the events the EthSubscribable closure handles while it is
listening: those before the first subscription error or cancellation. -/
def handledValues (events : List EthEvent) : List Value :=
  (events.takeWhile fun e => !e.terminal).filterMap EthEvent.value?

/-- The events the EthSubscribable closure handles: the values up to the first
subscription error or cancellation, and that event if there is one. -/
def handledEvents (events : List EthEvent) : List EthEvent :=
  (events.takeWhile fun e => !e.terminal) ++ (events.find? EthEvent.terminal).toList

/-- Three values, a subscription error, and events that come too late. -/
def sampleEthEvents : List EthEvent :=
  [.val 1, .val 2, .val 3, .err "connection lost", .val 4, .done]

/-- The time for which a call `time.Sleep(d)` of the Go standard library pauses the
caller: `d`, and no time when `d` is negative or zero ("a negative or zero duration
causes Sleep to return immediately"). -/
def sleepTime (d : Duration) : Duration :=
  max d 0

/-- The total time the closure has spent waiting in `time.Sleep`. -/
def TaskRun.waited (r : TaskRun) : Duration :=
  (r.sleeps.map sleepTime).sum

/-- An environment whose `IntervalTime` returns -5ms, then 0, then 7ms from the third
call on. -/
def erraticEnv : Env where
  cancelled := fun _ => false
  Condition := fun _ => false
  IntervalTime := fun k => if k = 0 then -5000000 else if k = 1 then 0 else 7000000
  chan := fun _ => none
  pick := fun _ => true

/-! ## Lemmas on the manager loops -/

theorem submitted_after (evs : List MgrEvent) (r : MgrRun) :
    (r.after evs).submitted = (MgrRun.mk evs none).submitted ++ r.submitted := by
  simp [MgrRun.after, MgrRun.submitted, List.filterMap_append]

theorem setups_after (evs : List MgrEvent) (r : MgrRun) :
    (r.after evs).setups = (MgrRun.mk evs none).setups ++ r.setups := by
  simp [MgrRun.after, MgrRun.setups, List.filterMap_append]

theorem teardowns_after (evs : List MgrEvent) (r : MgrRun) :
    (r.after evs).teardowns = (MgrRun.mk evs none).teardowns ++ r.teardowns := by
  simp [MgrRun.after, MgrRun.teardowns, List.filterMap_append]

theorem panic_after (evs : List MgrEvent) (r : MgrRun) :
    (r.after evs).panic = r.panic := rfl

theorem after_after (e₁ e₂ : List MgrEvent) (r : MgrRun) :
    (r.after e₂).after e₁ = r.after (e₁ ++ e₂) := by
  simp [MgrRun.after, List.append_assoc]

theorem producerTask_job {j : Job} {t : Task} (h : producerTask j = some t) : t.job = j := by
  unfold producerTask at h
  split_ifs at h <;> simp at h <;> rw [← h]

theorem producerTask_eq_firstCapability (j : Job) :
    (producerTask j).map Task.adapter = firstCapability j := by
  unfold producerTask firstCapability
  cases h₁ : j.isConditional <;> cases h₂ : j.isSubscribable <;>
    cases h₃ : j.isEthSubscribable <;> cases h₄ : j.isPolling <;>
    simp [List.find?, Job.implements, h₁, h₂, h₃, h₄]

theorem startable_iff (j : Job) :
    j.startable = true ↔ j.Setup = none ∧ ∃ t, producerTask j = some t := by
  unfold Job.startable producerTask
  cases h₁ : j.isConditional <;> cases h₂ : j.isSubscribable <;>
    cases h₃ : j.isEthSubscribable <;> cases h₄ : j.isPolling <;>
    simp [Option.isNone_iff_eq_none]

theorem startLoop_cons_ok {j : Job} {t : Task} (rest : List Job)
    (hs : j.Setup = none) (ht : producerTask j = some t) :
    startLoop (j :: rest) = (startLoop rest).after [.setup j, .submit t] := by
  simp [startLoop, hs, ht]

theorem startLoop_append (pre rest : List Job) (h : ∀ x ∈ pre, x.startable = true) :
    startLoop (pre ++ rest) = (startLoop rest).after (startLoop pre).events := by
  induction pre with
  | nil => simp [startLoop, MgrRun.after]
  | cons j pre ih =>
    obtain ⟨hs, t, ht⟩ := (startable_iff j).1 (h j (List.mem_cons_self _ _))
    have ih := ih fun x hx => h x (List.mem_cons_of_mem _ hx)
    rw [List.cons_append, startLoop_cons_ok _ hs ht, startLoop_cons_ok _ hs ht, ih, after_after]
    simp [MgrRun.after]

theorem startLoop_ok (jobs : List Job) (h : ∀ x ∈ jobs, x.startable = true) :
    (startLoop jobs).panic = none ∧ (startLoop jobs).submitted.map Task.job = jobs ∧
      (startLoop jobs).setups = jobs := by
  induction jobs with
  | nil => simp [startLoop, MgrRun.submitted, MgrRun.setups]
  | cons j jobs ih =>
    obtain ⟨hs, t, ht⟩ := (startable_iff j).1 (h j (List.mem_cons_self _ _))
    obtain ⟨ih₁, ih₂, ih₃⟩ := ih fun x hx => h x (List.mem_cons_of_mem _ hx)
    rw [startLoop_cons_ok _ hs ht, submitted_after, setups_after, panic_after]
    have e₁ : (MgrRun.mk [.setup j, .submit t] none).submitted = [t] := rfl
    have e₂ : (MgrRun.mk [.setup j, .submit t] none).setups = [j] := rfl
    rw [e₁, e₂]
    refine ⟨ih₁, ?_, ?_⟩
    · simp [ih₂, producerTask_job ht]
    · simp [ih₃]

theorem startLoop_panic_iff (jobs : List Job) :
    (startLoop jobs).panic ≠ none ↔ ∃ j ∈ jobs, j.startable = false := by
  induction jobs with
  | nil => simp [startLoop]
  | cons j jobs ih =>
    cases hj : j.startable
    · have : (startLoop (j :: jobs)).panic ≠ none := by
        cases hs : j.Setup with
        | some e => simp [startLoop, hs]
        | none =>
          cases ht : producerTask j with
          | none => simp [startLoop, hs, ht]
          | some t =>
            have := (startable_iff j).2 ⟨hs, t, ht⟩
            simp [hj] at this
      simpa [hj] using this
    · obtain ⟨hs, t, ht⟩ := (startable_iff j).1 hj
      rw [startLoop_cons_ok _ hs ht, panic_after, ih]
      simp [hj]

theorem stopLoop_cons_ok {j : Job} (rest : List Job) (hs : j.Teardown = none) :
    stopLoop (j :: rest) = (stopLoop rest).after [.teardown j] := by
  simp [stopLoop, hs]

theorem stopLoop_append (pre rest : List Job) (h : ∀ x ∈ pre, x.Teardown = none) :
    stopLoop (pre ++ rest) = (stopLoop rest).after (pre.map .teardown) := by
  induction pre with
  | nil => simp [MgrRun.after]
  | cons j pre ih =>
    have ih := ih fun x hx => h x (List.mem_cons_of_mem _ hx)
    rw [List.cons_append, stopLoop_cons_ok _ (h j (List.mem_cons_self _ _)), ih, after_after]
    simp

theorem teardowns_map (l : List Job) :
    (MgrRun.mk (l.map .teardown) none).teardowns = l := by
  induction l with
  | nil => rfl
  | cons j l ih => simpa [MgrRun.teardowns] using ih

theorem mem_submitted {jobs : List Job} {t : Task} (h : t ∈ (startLoop jobs).submitted) :
    t.job ∈ jobs ∧ producerTask t.job = some t := by
  induction jobs with
  | nil => simp [startLoop, MgrRun.submitted] at h
  | cons j jobs ih =>
    cases hs : j.Setup with
    | some e => simp [startLoop, hs, MgrRun.submitted] at h
    | none =>
      cases hp : producerTask j with
      | none => simp [startLoop, hs, hp, MgrRun.submitted] at h
      | some u =>
        rw [startLoop_cons_ok _ hs hp, submitted_after] at h
        have e₁ : (MgrRun.mk [.setup j, .submit u] none).submitted = [u] := rfl
        rw [e₁, List.singleton_append, List.mem_cons] at h
        rcases h with h | h
        · subst h
          have := producerTask_job hp
          exact ⟨by rw [this]; exact List.mem_cons_self _ _, by rw [this]; exact hp⟩
        · exact ⟨List.mem_cons_of_mem _ (ih h).1, (ih h).2⟩

theorem firstCapability_spec {j : Job} {a : Adapter} (h : firstCapability j = some a) :
    j.implements a = true ∧ ∀ b, j.implements b = true → a.rank ≤ b.rank := by
  unfold firstCapability at h
  cases h₁ : j.isConditional <;> cases h₂ : j.isSubscribable <;>
    cases h₃ : j.isEthSubscribable <;> cases h₄ : j.isPolling <;>
    simp [List.find?, Job.implements, h₁, h₂, h₃, h₄] at h <;> subst h <;>
    refine ⟨by simp [Job.implements, h₁, h₂, h₃, h₄], fun b hb => ?_⟩ <;>
    cases b <;> simp_all [Job.implements, Adapter.rank]

theorem startable_eq_false_iff (j : Job) :
    j.startable = false ↔ j.Setup ≠ none ∨ ∀ a, j.implements a = false := by
  constructor
  · intro h
    by_cases hs : j.Setup = none
    · right
      intro a
      cases j.Setup <;>
        cases h₁ : j.isConditional <;> cases h₂ : j.isSubscribable <;>
        cases h₃ : j.isEthSubscribable <;> cases h₄ : j.isPolling <;>
        cases a <;> simp_all [Job.startable, Job.implements]
    · exact Or.inl hs
  · rintro (h | h)
    · cases hs : j.Setup with
      | none => exact absurd hs h
      | some e => simp [Job.startable, hs]
    · have h₁ := h .conditional
      have h₂ := h .subscribable
      have h₃ := h .ethSubscribable
      have h₄ := h .polling
      simp only [Job.implements] at h₁ h₂ h₃ h₄
      simp [Job.startable, h₁, h₂, h₃, h₄]

theorem startLoop_bad_head (j : Job) (post : List Job) (h : j.startable = false) :
    startLoop (j :: post) =
      ⟨[.setup j], some (match j.Setup with
                         | some e => .error e
                         | none => .msg "unknown job type")⟩ := by
  cases hs : j.Setup with
  | some e => simp [startLoop, hs]
  | none =>
    cases hp : producerTask j with
    | none => simp [startLoop, hs, hp]
    | some t =>
      have := (startable_iff j).2 ⟨hs, t, hp⟩
      simp [h] at this

theorem stopLoop_bad_head (j : Job) (post : List Job) {e : Err} (h : j.Teardown = some e) :
    stopLoop (j :: post) = ⟨[.teardown j], some (.error e)⟩ := by
  simp [stopLoop, h]

theorem stopLoop_teardowns_take (jobs : List Job) :
    ∃ k, (stopLoop jobs).teardowns = jobs.take k := by
  induction jobs with
  | nil => exact ⟨0, rfl⟩
  | cons j jobs ih =>
    cases hs : j.Teardown with
    | some e => exact ⟨1, by rw [stopLoop_bad_head j jobs hs]; rfl⟩
    | none =>
      obtain ⟨k, hk⟩ := ih
      refine ⟨k + 1, ?_⟩
      rw [stopLoop_cons_ok _ hs, teardowns_after, hk]
      rfl

theorem stopLoop_panic_iff (jobs : List Job) :
    (stopLoop jobs).panic = none ↔ ∀ j ∈ (stopLoop jobs).teardowns, j.Teardown = none := by
  induction jobs with
  | nil => simp [stopLoop, MgrRun.teardowns]
  | cons j jobs ih =>
    cases hs : j.Teardown with
    | some e =>
      rw [stopLoop_bad_head j jobs hs]
      simp [MgrRun.teardowns, hs]
    | none =>
      rw [stopLoop_cons_ok _ hs, teardowns_after, panic_after, ih]
      have e₁ : (MgrRun.mk [.teardown j] none).teardowns = [j] := rfl
      rw [e₁]
      simp [hs]

theorem stopLoop_ok (jobs : List Job) (h : (stopLoop jobs).panic = none) :
    (stopLoop jobs).teardowns = jobs := by
  induction jobs with
  | nil => rfl
  | cons j jobs ih =>
    cases hs : j.Teardown with
    | some e => rw [stopLoop_bad_head j jobs hs] at h; simp at h
    | none =>
      rw [stopLoop_cons_ok _ hs, panic_after] at h
      rw [stopLoop_cons_ok _ hs, teardowns_after, ih h]
      rfl

/-! ## Start -/

/-- C1: when every job's `Setup` succeeds and every job implements at least one trigger
interface, `Start` does not panic and submits exactly `len(jobs)` tasks to the producer
pool, the `i`-th submitted task being the one of the `i`-th job (none for no job). -/
theorem Start_submits_one_task_per_job (jm : JobManager)
    (h : ∀ j ∈ jm.jobs, j.startable = true) :
    jm.Start.panic = none ∧ jm.Start.submitted.length = jm.jobs.length ∧
      jm.Start.submitted.map Task.job = jm.jobs := by
  obtain ⟨h₁, h₂, _⟩ := startLoop_ok jm.jobs h
  refine ⟨h₁, ?_, h₂⟩
  have := congrArg List.length h₂
  simpa using this

theorem Start_submits_one_task_per_job_witness :
    (∀ j ∈ mixedManager.jobs, j.startable = true) ∧
      mixedManager.Start.panic = none ∧
      mixedManager.Start.submitted.length = mixedManager.jobs.length ∧
      mixedManager.Start.submitted.map Task.job = mixedManager.jobs :=
  ⟨by decide, Start_submits_one_task_per_job mixedManager (by decide)⟩

/-- C2: a task that `Start` submits is the adapter of the first capability its job
satisfies in the order Conditional, Subscribable, EthSubscribable, Polling: the job
satisfies it, it satisfies no capability tested earlier, and a job with exactly one
capability gets that one. The `if`/`else if` chain of `Start` agrees with that rule on
every job. -/
theorem Start_dispatches_first_capability (jm : JobManager) (t : Task)
    (ht : t ∈ jm.Start.submitted) :
    t.job ∈ jm.jobs ∧
      producerTask t.job = (firstCapability t.job).map (Task.mk t.job) ∧
      firstCapability t.job = some t.adapter ∧
      t.job.implements t.adapter = true ∧
      (∀ b, t.job.implements b = true → t.adapter.rank ≤ b.rank) ∧
      (∀ a, t.job.implements a = true → (∀ b, b ≠ a → t.job.implements b = false) →
        t.adapter = a) := by
  obtain ⟨hmem, hp⟩ := mem_submitted ht
  have hf : firstCapability t.job = some t.adapter := by
    rw [← producerTask_eq_firstCapability, hp]; rfl
  obtain ⟨hi, hr⟩ := firstCapability_spec hf
  refine ⟨hmem, ?_, hf, hi, hr, fun a _ hb => ?_⟩
  · rw [hp, hf]; rfl
  · by_contra hne
    rw [hb _ hne] at hi
    exact Bool.false_ne_true hi

theorem Start_dispatches_first_capability_witness :
    (⟨condPollJob, .conditional⟩ : Task) ∈ mixedManager.Start.submitted ∧
      (⟨condPollJob, .polling⟩ : Task) ∉ mixedManager.Start.submitted ∧
      condPollJob.implements .polling = true ∧
      firstCapability condPollJob = some .conditional :=
  ⟨by decide, by decide, by decide,
    (Start_dispatches_first_capability mixedManager ⟨condPollJob, .conditional⟩
      (by decide)).2.2.1⟩

/-- C3: `Start` panics exactly when some job's `Setup` returns an error or some job
implements none of the four trigger interfaces. At the first such job in list order it
panics with the `Setup` error, or with "unknown job type" when `Setup` succeeded; the
jobs before it, and only they, have a task submitted, and `Setup` was invoked on the
jobs up to it and on no later job. -/
theorem Start_panics_at_first_bad_job (jm : JobManager) :
    (jm.Start.panic ≠ none ↔
        ∃ j ∈ jm.jobs, j.Setup ≠ none ∨ ∀ a, j.implements a = false) ∧
      ∀ pre j post, jm.jobs = pre ++ j :: post →
        (∀ x ∈ pre, x.Setup = none ∧ ∃ a, x.implements a = true) →
        (j.Setup ≠ none ∨ ∀ a, j.implements a = false) →
        jm.Start.panic = some (match j.Setup with
                               | some e => .error e
                               | none => .msg "unknown job type") ∧
          jm.Start.submitted.map Task.job = pre ∧
          jm.Start.setups = pre ++ [j] := by
  refine ⟨?_, fun pre j post hjobs hpre hj => ?_⟩
  · unfold JobManager.Start
    rw [startLoop_panic_iff]
    simp only [startable_eq_false_iff]
  · have hpre' : ∀ x ∈ pre, x.startable = true := fun x hx => by
      obtain ⟨h₁, a, h₂⟩ := hpre x hx
      cases hst : x.startable
      · rcases (startable_eq_false_iff x).1 hst with h | h
        · exact absurd h₁ h
        · rw [h a] at h₂
          exact absurd h₂ Bool.false_ne_true
      · rfl
    have hj' := (startable_eq_false_iff j).2 hj
    obtain ⟨_, h₂, h₃⟩ := startLoop_ok pre hpre'
    unfold JobManager.Start
    rw [hjobs, startLoop_append pre _ hpre', startLoop_bad_head j post hj', panic_after,
      submitted_after, setups_after]
    refine ⟨rfl, ?_, ?_⟩
    · have e₁ : (MgrRun.mk (startLoop pre).events none).submitted = (startLoop pre).submitted :=
        rfl
      have e₂ : (MgrRun.mk [.setup j] (some (match j.Setup with
                  | some e => PanicValue.error e
                  | none => .msg "unknown job type"))).submitted = [] := rfl
      rw [e₁, e₂, List.append_nil, h₂]
    · have e₁ : (MgrRun.mk (startLoop pre).events none).setups = (startLoop pre).setups := rfl
      have e₂ : (MgrRun.mk [.setup j] (some (match j.Setup with
                  | some e => PanicValue.error e
                  | none => .msg "unknown job type"))).setups = [j] := rfl
      rw [e₁, e₂, h₃]

theorem Start_panics_at_first_bad_job_witness :
    unknownManager.Start.panic = some (.msg "unknown job type") ∧
      unknownManager.Start.submitted.map Task.job = [pollJob, subJob] ∧
      unknownManager.Start.setups = [pollJob, subJob] ++ [plainJob] :=
  (Start_panics_at_first_bad_job unknownManager).2 [pollJob, subJob] plainJob
    [badSetupJob, ethJob] rfl
    (fun x hx => by
      rcases List.mem_cons.1 hx with rfl | hx
      · exact ⟨rfl, .polling, rfl⟩
      · rcases List.mem_cons.1 hx with rfl | hx
        · exact ⟨rfl, .subscribable, rfl⟩
        · cases hx)
    (Or.inr fun a => by cases a <;> rfl)

/-! ## Stop -/

/-- C4: one call of `Stop` invokes `Teardown` on an initial segment of the job list, in
list order, once per entry; at the first `Teardown` that returns an error it panics with
that error and no later job is torn down; it returns normally exactly when no invoked
`Teardown` failed, and then every job was torn down once, in list order. -/
theorem Stop_tears_down_in_order (jm : JobManager) :
    (∃ k, jm.Stop.teardowns = jm.jobs.take k) ∧
      (∀ pre j post e, jm.jobs = pre ++ j :: post →
        (∀ x ∈ pre, x.Teardown = none) → j.Teardown = some e →
        jm.Stop.panic = some (.error e) ∧ jm.Stop.teardowns = pre ++ [j]) ∧
      (jm.Stop.panic = none ↔ ∀ j ∈ jm.Stop.teardowns, j.Teardown = none) ∧
      (jm.Stop.panic = none → jm.Stop.teardowns = jm.jobs) := by
  refine ⟨stopLoop_teardowns_take jm.jobs, fun pre j post e hjobs hpre hj => ?_,
    stopLoop_panic_iff jm.jobs, stopLoop_ok jm.jobs⟩
  unfold JobManager.Stop
  rw [hjobs, stopLoop_append pre _ hpre, stopLoop_bad_head j post hj, panic_after,
    teardowns_after, teardowns_map]
  exact ⟨rfl, rfl⟩

theorem Stop_tears_down_in_order_witness :
    leakyManager.Stop.panic = some (.error "teardown failed") ∧
      leakyManager.Stop.teardowns = [subJob] ++ [badTeardownJob] :=
  (Stop_tears_down_in_order leakyManager).2.1 [subJob] badTeardownJob [pollJob]
    "teardown failed" rfl
    (fun x hx => by
      rcases List.mem_cons.1 hx with rfl | hx
      · rfl
      · cases hx)
    rfl

/-! ## NewJobManager -/

/-- C9: `NewJobManager` gives the producer pool `MinWorkers = MaxWorkers = len(jobs)`,
which is the number of tasks a `Start` that does not panic submits; the configuration of
the executor pool is the default one under the given name, whatever the job list. -/
theorem NewJobManager_producer_pool_size (dflt : PoolConfig) (name : String)
    (jobs : List Job) :
    (NewJobManager dflt name jobs).jobProducers.cfg.MinWorkers = jobs.length ∧
      (NewJobManager dflt name jobs).jobProducers.cfg.MaxWorkers = jobs.length ∧
      ((NewJobManager dflt name jobs).Start.panic = none →
        (NewJobManager dflt name jobs).Start.submitted.length =
          (NewJobManager dflt name jobs).jobProducers.cfg.MinWorkers) ∧
      (NewJobManager dflt name jobs).jobExecutors.cfg.MinWorkers = dflt.MinWorkers ∧
      (NewJobManager dflt name jobs).jobExecutors.cfg.MaxWorkers = dflt.MaxWorkers ∧
      ∀ others : List Job,
        (NewJobManager dflt name others).jobExecutors =
          (NewJobManager dflt name jobs).jobExecutors := by
  refine ⟨rfl, rfl, fun h => ?_, rfl, rfl, fun _ => rfl⟩
  have hall : ∀ j ∈ jobs, j.startable = true := fun j hj => by
    cases hst : j.startable
    · exact absurd h ((startLoop_panic_iff jobs).2 ⟨j, hj, hst⟩)
    · rfl
  have := congrArg List.length (startLoop_ok jobs hall).2.1
  simpa using this

theorem NewJobManager_producer_pool_size_witness :
    mixedManager.Start.panic = none ∧
      mixedManager.Start.submitted.length = mixedManager.jobProducers.cfg.MinWorkers ∧
      mixedManager.jobProducers.cfg.MinWorkers = 4 :=
  ⟨by decide,
    (NewJobManager_producer_pool_size samplePoolConfig "app"
      [condPollJob, subJob, ethJob, pollJob]).2.2.1 (by decide),
    by decide⟩

/-! ## Lemmas on producer tasks -/

theorem payloads_after (effs : List Effect) (r : TaskRun) :
    (r.after effs).payloads = (TaskRun.mk effs false).payloads ++ r.payloads := by
  simp [TaskRun.after, TaskRun.payloads, List.filterMap_append]

theorem received_after (effs : List Effect) (r : TaskRun) :
    (r.after effs).received = (TaskRun.mk effs false).received ++ r.received := by
  simp [TaskRun.after, TaskRun.received, List.filterMap_append]

theorem conditions_after (effs : List Effect) (r : TaskRun) :
    (r.after effs).conditions = (TaskRun.mk effs false).conditions ++ r.conditions := by
  simp [TaskRun.after, TaskRun.conditions, List.filterMap_append]

theorem intervals_after (effs : List Effect) (r : TaskRun) :
    (r.after effs).intervals = (TaskRun.mk effs false).intervals ++ r.intervals := by
  simp [TaskRun.after, TaskRun.intervals, List.filterMap_append]

theorem sleeps_after (effs : List Effect) (r : TaskRun) :
    (r.after effs).sleeps = (TaskRun.mk effs false).sleeps ++ r.sleeps := by
  simp [TaskRun.after, TaskRun.sleeps, List.filterMap_append]

theorem unsubscribes_after (effs : List Effect) (r : TaskRun) :
    (r.after effs).unsubscribes = (TaskRun.mk effs false).unsubscribes + r.unsubscribes := by
  simp [TaskRun.after, TaskRun.unsubscribes, List.count_append]

theorem returned_after (effs : List Effect) (r : TaskRun) :
    (r.after effs).returned = r.returned := rfl

theorem effects_after (effs : List Effect) (r : TaskRun) :
    (r.after effs).effects = effs ++ r.effects := rfl

theorem falseTicks_succ (n : Nat) :
    falseTicks (n + 1) = [.sleep conditionTick, .condition false] ++ falseTicks n := by
  simp [falseTicks, List.replicate_succ]

theorem payloads_falseTicks (n : Nat) (b : Bool) : (TaskRun.mk (falseTicks n) b).payloads = [] := by
  induction n with
  | zero => rfl
  | succ n ih =>
    rw [falseTicks_succ]
    simpa [TaskRun.payloads] using ih

theorem conditions_falseTicks (n : Nat) (b : Bool) :
    (TaskRun.mk (falseTicks n) b).conditions = List.replicate n false := by
  induction n with
  | zero => rfl
  | succ n ih =>
    rw [falseTicks_succ, List.replicate_succ]
    simpa [TaskRun.conditions] using ih

theorem conditionalLoop_all_false (ctx : Ctx) (j : Job) (env : Env) (n k : Nat)
    (h : ∀ i < n, env.Condition (k + i) = false) :
    conditionalLoop ctx j env n k = ⟨falseTicks n, false⟩ := by
  induction n generalizing k with
  | zero => rfl
  | succ n ih =>
    have h0 : env.Condition k = false := by simpa using h 0 (Nat.succ_pos n)
    have ih := ih (k + 1) fun i hi => by
      have := h (i + 1) (Nat.succ_lt_succ hi)
      rwa [Nat.add_assoc, Nat.add_comm 1 i]
    simp only [conditionalLoop, h0, ih, falseTicks_succ, TaskRun.after]
    simp

theorem conditionalLoop_first_true (ctx : Ctx) (j : Job) (env : Env) (m fuel k : Nat)
    (h : ∀ i < m, env.Condition (k + i) = false) (ht : env.Condition (k + m) = true)
    (hf : m < fuel) :
    conditionalLoop ctx j env fuel k = ⟨falseTicks m ++ firingTick ctx j, true⟩ := by
  induction m generalizing k fuel with
  | zero =>
    obtain ⟨f, rfl⟩ : ∃ f, fuel = f + 1 := ⟨fuel - 1, by omega⟩
    have ht : env.Condition k = true := by simpa using ht
    simp [conditionalLoop, ht, falseTicks, firingTick]
  | succ m ih =>
    obtain ⟨f, rfl⟩ : ∃ f, fuel = f + 1 := ⟨fuel - 1, by omega⟩
    have h0 : env.Condition k = false := by simpa using h 0 (Nat.succ_pos m)
    have ih := ih f (k + 1) (fun i hi => by
      have := h (i + 1) (Nat.succ_lt_succ hi)
      rwa [Nat.add_assoc, Nat.add_comm 1 i]) (by
      rwa [Nat.add_assoc, Nat.add_comm 1 m]) (by omega)
    simp only [conditionalLoop, h0, ih, falseTicks_succ, TaskRun.after]
    simp

theorem pollingLoop_succ (ctx : Ctx) (j : Job) (env : Env) (n k : Nat) :
    pollingLoop ctx j env (n + 1) k =
      (pollingLoop ctx j env n (k + 1)).after (pollTick ctx j env k) := rfl

theorem pollingLoop_returned (ctx : Ctx) (j : Job) (env : Env) (n k : Nat) :
    (pollingLoop ctx j env n k).returned = false := by
  induction n generalizing k with
  | zero => rfl
  | succ n ih => rw [pollingLoop_succ, returned_after, ih]

theorem pollingLoop_effects (ctx : Ctx) (j : Job) (env : Env) (n k : Nat) :
    (pollingLoop ctx j env n k).effects = (List.range' k n).flatMap (pollTick ctx j env) := by
  induction n generalizing k with
  | zero => rfl
  | succ n ih =>
    rw [pollingLoop_succ, effects_after, ih, List.range'_succ, List.flatMap_cons]

theorem pollingLoop_intervals (ctx : Ctx) (j : Job) (env : Env) (n k : Nat) :
    (pollingLoop ctx j env n k).intervals = (List.range' k n).map env.IntervalTime := by
  induction n generalizing k with
  | zero => rfl
  | succ n ih =>
    rw [pollingLoop_succ, intervals_after, ih, List.range'_succ, List.map_cons]
    rfl

theorem pollingLoop_sleeps (ctx : Ctx) (j : Job) (env : Env) (n k : Nat) :
    (pollingLoop ctx j env n k).sleeps = (List.range' k n).map env.IntervalTime := by
  induction n generalizing k with
  | zero => rfl
  | succ n ih =>
    rw [pollingLoop_succ, sleeps_after, ih, List.range'_succ, List.map_cons]
    rfl

theorem pollingLoop_payloads (ctx : Ctx) (j : Job) (env : Env) (n k : Nat) :
    (pollingLoop ctx j env n k).payloads = List.replicate n (NewPayload ctx j none) := by
  induction n generalizing k with
  | zero => rfl
  | succ n ih =>
    rw [pollingLoop_succ, payloads_after, ih, List.replicate_succ]
    rfl

theorem sum_map_range (f : Nat → Int) (n : Nat) :
    ((List.range n).map f).sum = ∑ i ∈ Finset.range n, f i := by
  induction n with
  | zero => rfl
  | succ n ih => rw [List.sum_range_succ, Finset.sum_range_succ, ih]

/-! ## The Conditional adapter -/

/-- C5: as long as every evaluation of `Condition` was false the Conditional task has
emitted no payload and is still running; at the first evaluation that returns true it
emits one payload carrying the job and no trigger value, right after that evaluation,
and returns, so `Condition` is never evaluated again and no second payload follows. -/
theorem Conditional_emits_once_at_first_true (ctx : Ctx) (j : Job) (env : Env) :
    (∀ n, (∀ i < n, env.Condition i = false) →
        conditionalTask ctx j env n = ⟨falseTicks n, false⟩ ∧
        (conditionalTask ctx j env n).payloads = []) ∧
      ∀ m fuel, (∀ i < m, env.Condition i = false) → env.Condition m = true → m < fuel →
        conditionalTask ctx j env fuel =
            ⟨falseTicks m ++
              [.sleep conditionTick, .condition true, .addJob ⟨ctx, j, none⟩], true⟩ ∧
          (conditionalTask ctx j env fuel).payloads = [⟨ctx, j, none⟩] ∧
          (conditionalTask ctx j env fuel).conditions = List.replicate m false ++ [true] := by
  refine ⟨fun n h => ?_, fun m fuel h ht hf => ?_⟩
  · have e := conditionalLoop_all_false ctx j env n 0 (by simpa using h)
    unfold conditionalTask
    rw [e]
    exact ⟨rfl, payloads_falseTicks n false⟩
  · have e := conditionalLoop_first_true ctx j env m fuel 0 (by simpa using h)
      (by simpa using ht) hf
    unfold conditionalTask
    rw [e]
    refine ⟨rfl, ?_, ?_⟩
    · have := payloads_falseTicks m true
      simp only [TaskRun.payloads] at this ⊢
      rw [List.filterMap_append, this]
      rfl
    · have := conditions_falseTicks m true
      simp only [TaskRun.conditions] at this ⊢
      rw [List.filterMap_append, this]
      rfl

theorem Conditional_emits_once_at_first_true_witness :
    conditionalTask 0 condPollJob quietEnv 5 =
        ⟨falseTicks 2 ++
          [.sleep conditionTick, .condition true, .addJob ⟨0, condPollJob, none⟩], true⟩ ∧
      (conditionalTask 0 condPollJob quietEnv 5).payloads = [⟨0, condPollJob, none⟩] ∧
      (conditionalTask 0 condPollJob quietEnv 5).conditions =
        List.replicate 2 false ++ [true] :=
  (Conditional_emits_once_at_first_true 0 condPollJob quietEnv).2 2 5
    (fun i hi => by
      have : ¬ 2 ≤ i := by omega
      simp [quietEnv, this])
    (by simp [quietEnv]) (by decide)

/-! ## The Polling adapter -/

/-- C8, the claim as stated fails: when `IntervalTime` returns -5ms, 0 and 7ms the
Polling task passes these to `time.Sleep`, which returns at once for the first two, so
after three iterations it has waited 7ms and not the sum 2ms of the three durations. -/
theorem Polling_waits_less_than_negative_sum :
    (pollingTask 0 pollJob erraticEnv 3).sleeps = [-5000000, 0, 7000000] ∧
      (pollingTask 0 pollJob erraticEnv 3).waited = 7000000 ∧
      ((List.range 3).map erraticEnv.IntervalTime).sum = 2000000 ∧
      ¬ ∀ (ctx : Ctx) (j : Job) (env : Env) (n : Nat),
          (pollingTask ctx j env n).waited = ((List.range n).map env.IntervalTime).sum :=
  ⟨by decide, by decide, by decide, fun h => by
    have := h 0 pollJob erraticEnv 3
    revert this
    decide⟩

/-- C8, amended: after `n` iterations the Polling task has called `IntervalTime` `n`
times, once per iteration, has passed the `k`-th result to `time.Sleep` in iteration `k`
(before the next call), and has emitted one payload without trigger value after each
sleep: `n` payloads. The time it has waited is the sum of the positive results among the
first `n` (a negative or zero result costs no wait), which is the sum of the first `n`
results when none of them is negative. -/
theorem Polling_emits_one_payload_per_interval (ctx : Ctx) (j : Job) (env : Env) (n : Nat) :
    (pollingTask ctx j env n).effects =
        (List.range n).flatMap (fun k =>
          [.intervalTime (env.IntervalTime k), .sleep (env.IntervalTime k),
           .addJob ⟨ctx, j, none⟩]) ∧
      (pollingTask ctx j env n).intervals = (List.range n).map env.IntervalTime ∧
      (pollingTask ctx j env n).sleeps = (List.range n).map env.IntervalTime ∧
      (pollingTask ctx j env n).payloads = List.replicate n ⟨ctx, j, none⟩ ∧
      (pollingTask ctx j env n).payloads.length = n ∧
      (pollingTask ctx j env n).sleeps.sum = ∑ k ∈ Finset.range n, env.IntervalTime k ∧
      (pollingTask ctx j env n).waited = ∑ k ∈ Finset.range n, max (env.IntervalTime k) 0 ∧
      ((∀ k < n, 0 ≤ env.IntervalTime k) →
        (pollingTask ctx j env n).waited = ∑ k ∈ Finset.range n, env.IntervalTime k) := by
  have hw : (pollingTask ctx j env n).waited =
      ∑ k ∈ Finset.range n, max (env.IntervalTime k) 0 := by
    unfold pollingTask TaskRun.waited
    rw [pollingLoop_sleeps, ← List.range_eq_range', List.map_map, sum_map_range]
    rfl
  refine ⟨?_, ?_, ?_, ?_, ?_, ?_, hw, fun h => ?_⟩
  · unfold pollingTask
    rw [pollingLoop_effects, ← List.range_eq_range']
    rfl
  · unfold pollingTask
    rw [pollingLoop_intervals, ← List.range_eq_range']
  · unfold pollingTask
    rw [pollingLoop_sleeps, ← List.range_eq_range']
  · unfold pollingTask
    rw [pollingLoop_payloads]
    rfl
  · unfold pollingTask
    rw [pollingLoop_payloads, List.length_replicate]
  · unfold pollingTask
    rw [pollingLoop_sleeps, ← List.range_eq_range', sum_map_range]
  · rw [hw]
    exact Finset.sum_congr rfl fun k hk => max_eq_left (h k (Finset.mem_range.1 hk))

theorem Polling_emits_one_payload_per_interval_witness :
    (pollingTask 0 pollJob quietEnv 3).sleeps = [10000000, 20000000, 30000000] ∧
      (pollingTask 0 pollJob quietEnv 3).payloads.length = 3 ∧
      (pollingTask 0 pollJob quietEnv 3).waited =
        ∑ k ∈ Finset.range 3, quietEnv.IntervalTime k :=
  ⟨by decide, (Polling_emits_one_payload_per_interval 0 pollJob quietEnv 3).2.2.2.2.1,
    (Polling_emits_one_payload_per_interval 0 pollJob quietEnv 3).2.2.2.2.2.2.2
      (fun k _ => by
        show (0 : Int) ≤ 10000000 * ((k : Int) + 1)
        positivity)⟩

/-! ## Cancellation and the Conditional and Polling adapters -/

theorem conditionalLoop_congr (ctx : Ctx) (j : Job) (e₁ e₂ : Env) (n k : Nat)
    (h : ∀ i < n, e₁.Condition (k + i) = e₂.Condition (k + i)) :
    conditionalLoop ctx j e₁ n k = conditionalLoop ctx j e₂ n k := by
  induction n generalizing k with
  | zero => rfl
  | succ n ih =>
    have h0 : e₁.Condition k = e₂.Condition k := by simpa using h 0 (Nat.succ_pos n)
    have ih := ih (k + 1) fun i hi => by
      have := h (i + 1) (Nat.succ_lt_succ hi)
      rwa [Nat.add_assoc, Nat.add_comm 1 i]
    simp only [conditionalLoop, h0, ih]

theorem pollingLoop_congr (ctx : Ctx) (j : Job) (e₁ e₂ : Env) (n k : Nat)
    (h : ∀ i < n, e₁.IntervalTime (k + i) = e₂.IntervalTime (k + i)) :
    pollingLoop ctx j e₁ n k = pollingLoop ctx j e₂ n k := by
  induction n generalizing k with
  | zero => rfl
  | succ n ih =>
    have h0 : e₁.IntervalTime k = e₂.IntervalTime k := by simpa using h 0 (Nat.succ_pos n)
    have ih := ih (k + 1) fun i hi => by
      have := h (i + 1) (Nat.succ_lt_succ hi)
      rwa [Nat.add_assoc, Nat.add_comm 1 i]
    simp only [pollingLoop, h0, ih]

theorem conditionalLoop_returned_iff (ctx : Ctx) (j : Job) (env : Env) (n k : Nat) :
    (conditionalLoop ctx j env n k).returned = true ↔ ∃ i < n, env.Condition (k + i) = true := by
  induction n generalizing k with
  | zero => simp [conditionalLoop]
  | succ n ih =>
    cases h0 : env.Condition k
    · have e : conditionalLoop ctx j env (n + 1) k =
          (conditionalLoop ctx j env n (k + 1)).after
            [.sleep conditionTick, .condition false] := by
        simp [conditionalLoop, h0]
      rw [e, returned_after, ih (k + 1)]
      constructor
      · rintro ⟨i, hi, h⟩
        exact ⟨i + 1, Nat.succ_lt_succ hi, by rwa [Nat.add_assoc, Nat.add_comm 1 i] at h⟩
      · rintro ⟨i, hi, h⟩
        cases i with
        | zero => simp [h0] at h
        | succ i =>
          exact ⟨i, Nat.lt_of_succ_lt_succ hi, by rwa [Nat.add_assoc, Nat.add_comm 1 i]⟩
    · have e : (conditionalLoop ctx j env (n + 1) k).returned = true := by
        simp [conditionalLoop, h0]
      exact ⟨fun _ => ⟨0, Nat.succ_pos n, by simpa using h0⟩, fun _ => e⟩

/-- C10: the Conditional and the Polling task do not read the cancellation signal. Two
environments that give the same results of `Condition` (of `IntervalTime`) lead to the
same effects, payloads included, and the same termination status, whatever their
cancellation signals are; the Polling task has never returned, and the Conditional task
has returned exactly when some evaluation of `Condition` was true. -/
theorem Conditional_and_Polling_ignore_cancellation (ctx : Ctx) (j : Job) (e₁ e₂ : Env)
    (n : Nat) :
    ((∀ i < n, e₁.Condition i = e₂.Condition i) →
        conditionalTask ctx j e₁ n = conditionalTask ctx j e₂ n) ∧
      ((∀ i < n, e₁.IntervalTime i = e₂.IntervalTime i) →
        pollingTask ctx j e₁ n = pollingTask ctx j e₂ n) ∧
      (pollingTask ctx j e₁ n).returned = false ∧
      ((conditionalTask ctx j e₁ n).returned = true ↔ ∃ i < n, e₁.Condition i = true) := by
  refine ⟨fun h => ?_, fun h => ?_, pollingLoop_returned ctx j e₁ n 0, ?_⟩
  · exact conditionalLoop_congr ctx j e₁ e₂ n 0 (by simpa using h)
  · exact pollingLoop_congr ctx j e₁ e₂ n 0 (by simpa using h)
  · simpa [conditionalTask] using conditionalLoop_returned_iff ctx j e₁ n 0

theorem Conditional_and_Polling_ignore_cancellation_witness :
    quietEnv.cancelled 0 = false ∧ cancelledEnv.cancelled 0 = true ∧
      conditionalTask 0 condPollJob quietEnv 5 = conditionalTask 0 condPollJob cancelledEnv 5 ∧
      pollingTask 0 pollJob quietEnv 5 = pollingTask 0 pollJob cancelledEnv 5 :=
  ⟨rfl, rfl,
    (Conditional_and_Polling_ignore_cancellation 0 condPollJob quietEnv cancelledEnv 5).1
      (fun _ _ => rfl),
    (Conditional_and_Polling_ignore_cancellation 0 pollJob quietEnv cancelledEnv 5).2.1
      (fun _ _ => rfl)⟩

/-! ## The EthSubscribable adapter -/

theorem ethSubscribableLoop_spec (ctx : Ctx) (j : Job) (events : List EthEvent) :
    (ethSubscribableLoop ctx j events).payloads =
        (handledValues events).map (fun v => ⟨ctx, j, some v⟩) ∧
      (ethSubscribableLoop ctx j events).received = handledValues events ∧
      (ethSubscribableLoop ctx j events).returned = events.any EthEvent.terminal ∧
      (ethSubscribableLoop ctx j events).unsubscribes =
        (if events.any EthEvent.terminal then 1 else 0) ∧
      ethSubscribableLoop ctx j events = ethSubscribableLoop ctx j (handledEvents events) := by
  induction events with
  | nil => exact ⟨rfl, rfl, rfl, rfl, rfl⟩
  | cons e rest ih =>
    cases e with
    | done => exact ⟨rfl, rfl, rfl, rfl, rfl⟩
    | err x => exact ⟨rfl, rfl, rfl, rfl, rfl⟩
    | val v =>
      obtain ⟨h₁, h₂, h₃, h₄, h₅⟩ := ih
      have e : ethSubscribableLoop ctx j (.val v :: rest) =
          (ethSubscribableLoop ctx j rest).after
            [.recv v, .addJob (NewPayload ctx j (some v))] := rfl
      have hv : handledValues (.val v :: rest) = v :: handledValues rest := by
        simp [handledValues, EthEvent.terminal, EthEvent.value?]
      have he : handledEvents (.val v :: rest) = .val v :: handledEvents rest := by
        simp [handledEvents, EthEvent.terminal]
      have ha : (EthEvent.val v :: rest).any EthEvent.terminal = rest.any EthEvent.terminal := by
        simp [EthEvent.terminal]
      refine ⟨?_, ?_, ?_, ?_, ?_⟩
      · rw [e, payloads_after, h₁, hv]; rfl
      · rw [e, received_after, h₂, hv]; rfl
      · rw [e, returned_after, h₃, ha]
      · rw [e, unsubscribes_after, h₄, ha]
        have : (TaskRun.mk [.recv v, .addJob (NewPayload ctx j (some v))] false).unsubscribes
            = 0 := by simp [TaskRun.unsubscribes]
        rw [this, Nat.zero_add]
      · rw [he, e]
        have : ethSubscribableLoop ctx j (.val v :: handledEvents rest) =
            (ethSubscribableLoop ctx j (handledEvents rest)).after
              [.recv v, .addJob (NewPayload ctx j (some v))] := rfl
        rw [this, ← h₅]

/-- C7: for every sequence of events offered to the EthSubscribable task, the task
handles the values before the first subscription error or cancellation, emitting for
each one payload that carries it, in order; it returns at that first error or
cancellation, ignores everything after it, and has called `Unsubscribe` once if it
returned and not at all while it is still listening. -/
theorem EthSubscribable_stops_at_first_terminal (ctx : Ctx) (j : Job)
    (events : List EthEvent) :
    (ethSubscribableTask ctx j events).payloads =
        (handledValues events).map (fun v => ⟨ctx, j, some v⟩) ∧
      (ethSubscribableTask ctx j events).received = handledValues events ∧
      (ethSubscribableTask ctx j events).returned = events.any EthEvent.terminal ∧
      (ethSubscribableTask ctx j events).unsubscribes =
        (if events.any EthEvent.terminal then 1 else 0) ∧
      ethSubscribableTask ctx j events = ethSubscribableTask ctx j (handledEvents events) := by
  obtain ⟨h₁, h₂, h₃, h₄, h₅⟩ := ethSubscribableLoop_spec ctx j events
  unfold ethSubscribableTask
  refine ⟨?_, ?_, ?_, ?_, ?_⟩
  · rw [payloads_after, h₁]; rfl
  · rw [received_after, h₂]; rfl
  · rw [returned_after, h₃]
  · rw [unsubscribes_after, h₄]
    have : (TaskRun.mk [.subscribe] false).unsubscribes = 0 := by decide
    rw [this, Nat.zero_add]
  · rw [← h₅]

theorem EthSubscribable_stops_at_first_terminal_witness :
    (ethSubscribableTask 0 ethJob sampleEthEvents).payloads =
        [⟨0, ethJob, some 1⟩, ⟨0, ethJob, some 2⟩, ⟨0, ethJob, some 3⟩] ∧
      (ethSubscribableTask 0 ethJob sampleEthEvents).returned = true ∧
      (ethSubscribableTask 0 ethJob sampleEthEvents).unsubscribes = 1 :=
  ⟨(EthSubscribable_stops_at_first_terminal 0 ethJob sampleEthEvents).1, by decide, by decide⟩

/-! ## The Subscribable adapter -/

theorem selectSub_done {chan : Option Value} {cancelled pick : Bool}
    (h : selectSub chan cancelled pick = .done) : cancelled = true := by
  cases chan <;> cases cancelled <;> cases pick <;> simp [selectSub] at h ⊢

theorem selectSub_of_cancelled {chan : Option Value} {pick : Bool}
    (h : chan = none ∨ pick = false) : selectSub chan true pick = .done := by
  cases chan <;> cases pick <;> simp [selectSub] at h ⊢

theorem subscribableLoop_val (ctx : Ctx) (j : Job) (env : Env) (n k : Nat) {v : Value}
    (h : selectSub (env.chan k) (env.cancelled k) (env.pick k) = .val v) :
    subscribableLoop ctx j env (n + 1) k =
      (subscribableLoop ctx j env n (k + 1)).after
        [.recv v, .addJob (NewPayload ctx j (some v))] := by
  simp [subscribableLoop, h]

theorem subscribableLoop_done (ctx : Ctx) (j : Job) (env : Env) (n k : Nat)
    (h : selectSub (env.chan k) (env.cancelled k) (env.pick k) = .done) :
    subscribableLoop ctx j env (n + 1) k = ⟨[.recvDone], true⟩ := by
  simp [subscribableLoop, h]

theorem subscribableLoop_dflt (ctx : Ctx) (j : Job) (env : Env) (n k : Nat)
    (h : selectSub (env.chan k) (env.cancelled k) (env.pick k) = .dflt) :
    subscribableLoop ctx j env (n + 1) k = subscribableLoop ctx j env n (k + 1) := by
  simp [subscribableLoop, h]

theorem subscribableLoop_payloads (ctx : Ctx) (j : Job) (env : Env) (n k : Nat) :
    (subscribableLoop ctx j env n k).payloads =
      (subscribableLoop ctx j env n k).received.map (fun v => ⟨ctx, j, some v⟩) := by
  induction n generalizing k with
  | zero => rfl
  | succ n ih =>
    cases h : selectSub (env.chan k) (env.cancelled k) (env.pick k) with
    | val v =>
      rw [subscribableLoop_val ctx j env n k h, payloads_after, received_after, ih]
      rfl
    | done => rw [subscribableLoop_done ctx j env n k h]; rfl
    | dflt => rw [subscribableLoop_dflt ctx j env n k h, ih]

theorem subscribableLoop_returned (ctx : Ctx) (j : Job) (env : Env) (n k : Nat)
    (hr : (subscribableLoop ctx j env n k).returned = true) :
    ∃ i < n, env.cancelled (k + i) = true := by
  induction n generalizing k with
  | zero => simp [subscribableLoop] at hr
  | succ n ih =>
    have lift : (∃ i < n, env.cancelled (k + 1 + i) = true) →
        ∃ i < n + 1, env.cancelled (k + i) = true := by
      rintro ⟨i, hi, h⟩
      exact ⟨i + 1, Nat.succ_lt_succ hi, by rwa [Nat.add_assoc, Nat.add_comm 1 i] at h⟩
    cases h : selectSub (env.chan k) (env.cancelled k) (env.pick k) with
    | val v =>
      rw [subscribableLoop_val ctx j env n k h, returned_after] at hr
      exact lift (ih _ hr)
    | done => exact ⟨0, Nat.succ_pos n, by simpa using selectSub_done h⟩
    | dflt =>
      rw [subscribableLoop_dflt ctx j env n k h] at hr
      exact lift (ih _ hr)

theorem subscribableLoop_stable (ctx : Ctx) (j : Job) (env : Env) (n k more : Nat)
    (hr : (subscribableLoop ctx j env n k).returned = true) :
    subscribableLoop ctx j env (n + more) k = subscribableLoop ctx j env n k := by
  induction n generalizing k with
  | zero => simp [subscribableLoop] at hr
  | succ n ih =>
    have e : n + 1 + more = (n + more) + 1 := by omega
    rw [e]
    cases h : selectSub (env.chan k) (env.cancelled k) (env.pick k) with
    | val v =>
      rw [subscribableLoop_val ctx j env n k h, returned_after] at hr
      rw [subscribableLoop_val ctx j env n k h, subscribableLoop_val ctx j env (n + more) k h,
        ih _ hr]
    | done =>
      rw [subscribableLoop_done ctx j env n k h, subscribableLoop_done ctx j env (n + more) k h]
    | dflt =>
      rw [subscribableLoop_dflt ctx j env n k h] at hr
      rw [subscribableLoop_dflt ctx j env n k h, subscribableLoop_dflt ctx j env (n + more) k h,
        ih _ hr]

theorem subscribableLoop_returns (ctx : Ctx) (j : Job) (env : Env) (n k : Nat)
    (h : ∃ i < n, env.cancelled (k + i) = true ∧
      (env.chan (k + i) = none ∨ env.pick (k + i) = false)) :
    (subscribableLoop ctx j env n k).returned = true := by
  induction n generalizing k with
  | zero => obtain ⟨i, hi, _⟩ := h; cases hi
  | succ n ih =>
    cases hs : selectSub (env.chan k) (env.cancelled k) (env.pick k) with
    | done => rw [subscribableLoop_done ctx j env n k hs]
    | val v =>
      rw [subscribableLoop_val ctx j env n k hs, returned_after]
      obtain ⟨i, hi, hc, hq⟩ := h
      cases i with
      | zero =>
        rw [Nat.add_zero] at hc hq
        rw [hc, selectSub_of_cancelled hq] at hs
        cases hs
      | succ i =>
        refine ih _ ⟨i, Nat.lt_of_succ_lt_succ hi, ?_, ?_⟩
        · rwa [Nat.add_assoc, Nat.add_comm 1 i]
        · rwa [Nat.add_assoc, Nat.add_comm 1 i]
    | dflt =>
      rw [subscribableLoop_dflt ctx j env n k hs]
      obtain ⟨i, hi, hc, hq⟩ := h
      cases i with
      | zero =>
        rw [Nat.add_zero] at hc hq
        rw [hc, selectSub_of_cancelled hq] at hs
        cases hs
      | succ i =>
        refine ih _ ⟨i, Nat.lt_of_succ_lt_succ hi, ?_, ?_⟩
        · rwa [Nat.add_assoc, Nat.add_comm 1 i]
        · rwa [Nat.add_assoc, Nat.add_comm 1 i]

theorem selectSub_val {chan : Option Value} {cancelled pick : Bool} {v : Value}
    (h : selectSub chan cancelled pick = .val v) : chan = some v := by
  cases chan <;> cases cancelled <;> cases pick <;> simp [selectSub] at h ⊢ <;> exact h

theorem subscribableLoop_received (ctx : Ctx) (j : Job) (env : Env) (n k : Nat) (v : Value)
    (hv : v ∈ (subscribableLoop ctx j env n k).received) :
    ∃ i < n, env.chan (k + i) = some v := by
  induction n generalizing k with
  | zero => simp [subscribableLoop, TaskRun.received] at hv
  | succ n ih =>
    have lift : (∃ i < n, env.chan (k + 1 + i) = some v) →
        ∃ i < n + 1, env.chan (k + i) = some v := by
      rintro ⟨i, hi, h⟩
      exact ⟨i + 1, Nat.succ_lt_succ hi, by rwa [Nat.add_assoc, Nat.add_comm 1 i] at h⟩
    cases h : selectSub (env.chan k) (env.cancelled k) (env.pick k) with
    | val w =>
      rw [subscribableLoop_val ctx j env n k h, received_after] at hv
      have e : (TaskRun.mk [.recv w, .addJob (NewPayload ctx j (some w))] false).received
          = [w] := rfl
      rw [e, List.singleton_append, List.mem_cons] at hv
      rcases hv with rfl | hv
      · exact ⟨0, Nat.succ_pos n, by simpa using selectSub_val h⟩
      · exact lift (ih _ hv)
    | done =>
      rw [subscribableLoop_done ctx j env n k h] at hv
      simp [TaskRun.received] at hv
    | dflt =>
      rw [subscribableLoop_dflt ctx j env n k h] at hv
      exact lift (ih _ hv)

/-- C6, the claim as stated fails: with the cancellation signal fired before the first
`select` and a value ready on the channel, the `select` may take the value, and the
Subscribable task then emits a payload after cancellation has fired. -/
theorem Subscribable_emits_after_cancellation :
    racyEnv.cancelled 0 = true ∧
      subscribableTask 0 subJob racyEnv 2 =
        ⟨[.subscribe, .recv 7, .addJob ⟨0, subJob, some 7⟩, .recvDone], true⟩ ∧
      (subscribableTask 0 subJob racyEnv 2).payloads = [⟨0, subJob, some 7⟩] ∧
      ¬ ∀ (ctx : Ctx) (j : Job) (env : Env) (n : Nat), env.cancelled 0 = true →
          (subscribableTask ctx j env n).payloads = [] :=
  ⟨rfl, by decide, by decide, fun h => by
    have := h 0 subJob racyEnv 2 rfl
    revert this
    decide⟩

/-- C6, amended: the payloads of the Subscribable task are, in order, the values it
received from the subscription channel, each payload carrying the value received and
each value being one the channel offered; the task returns only by taking the
cancellation case of its `select`, so only once cancellation has fired, and from then on
it does nothing more; it is sure to have returned after an iteration at which
cancellation has fired and no value was ready (or the runtime chose cancellation). -/
theorem Subscribable_payloads_follow_receipts (ctx : Ctx) (j : Job) (env : Env) (n : Nat) :
    (subscribableTask ctx j env n).payloads =
        (subscribableTask ctx j env n).received.map (fun v => ⟨ctx, j, some v⟩) ∧
      (∀ v ∈ (subscribableTask ctx j env n).received, ∃ i < n, env.chan i = some v) ∧
      ((subscribableTask ctx j env n).returned = true →
        (∃ i < n, env.cancelled i = true) ∧
          ∀ more, subscribableTask ctx j env (n + more) = subscribableTask ctx j env n) ∧
      ((∃ i < n, env.cancelled i = true ∧ (env.chan i = none ∨ env.pick i = false)) →
        (subscribableTask ctx j env n).returned = true) := by
  unfold subscribableTask
  refine ⟨?_, fun v hv => ?_, fun hr => ⟨?_, fun more => ?_⟩, fun h => ?_⟩
  · rw [payloads_after, received_after, subscribableLoop_payloads]
    rfl
  · rw [received_after] at hv
    have e : (TaskRun.mk [.subscribe] false).received = [] := rfl
    rw [e, List.nil_append] at hv
    simpa using subscribableLoop_received ctx j env n 0 v hv
  · rw [returned_after] at hr
    simpa using subscribableLoop_returned ctx j env n 0 hr
  · rw [returned_after] at hr
    rw [subscribableLoop_stable ctx j env n 0 more hr]
  · rw [returned_after]
    exact subscribableLoop_returns ctx j env n 0 (by simpa using h)

theorem Subscribable_payloads_follow_receipts_witness :
    (subscribableTask 0 subJob racyEnv 2).returned = true ∧
      ((∃ i < 2, racyEnv.cancelled i = true) ∧
        ∀ more, subscribableTask 0 subJob racyEnv (2 + more) =
          subscribableTask 0 subJob racyEnv 2) :=
  ⟨by decide,
    (Subscribable_payloads_follow_receipts 0 subJob racyEnv 2).2.2.1 (by decide)⟩

end Baseapp
